import Mathlib

/-!
A shallow embedding of `dateparser/compound_relative_parser.py`
(class `CompoundRelativeParser`) and proofs about it.

Python `datetime` values are modelled as explicit year/month/day plus a
time-of-day record; the proleptic Gregorian calendar with years 1..9999 is
modelled exactly.  `datetime + timedelta(days=n)` raises `OverflowError`
when the result leaves that range; we model that by an `Except` value.
`dateutil.relativedelta(months=k)` shifts the month with floor-division
normalisation and clamps the day to the target month's length; a resulting
year outside 1..9999 raises `ValueError`, modelled as `none`.

Regular-expression patterns of the source are embedded as hand-written
anchored matchers over `List Char` (mirroring `re.match`, which anchors at
the start of the string and ignores trailing input).  Case-insensitive
patterns are modelled by lowercasing the input first; all literals in those
patterns are already lower case, so this is observably equivalent.
-/

/-- Day-of-month time component of a Python `datetime` (hour/minute/second). -/
structure Time where
  hour : Int
  minute : Int
  second : Int
deriving DecidableEq, Repr

/-- Calendar date component of a Python `datetime`. -/
structure Date where
  year : Int
  month : Int
  day : Int
deriving DecidableEq, Repr

/-- A Python `datetime` value: a date plus a time-of-day. -/
structure DateTime where
  date : Date
  time : Time
deriving DecidableEq, Repr

/-- Exceptions the embedded code can surface to its caller. -/
inductive PyExc where
  | overflowError
deriving DecidableEq, Repr

/-- Gregorian leap-year test, as Python's `calendar.isleap`. -/
def isLeap (y : Int) : Bool :=
  y % 4 == 0 && (y % 100 != 0 || y % 400 == 0)

/-- Number of days in a month of a given year. -/
def daysInMonth (y m : Int) : Int :=
  if m = 2 then (if isLeap y then 29 else 28)
  else if m = 4 ∨ m = 6 ∨ m = 9 ∨ m = 11 then 30
  else 31

/-- A date representable by Python's `datetime` (year 1..9999, real calendar day). -/
def ValidDate (d : Date) : Prop :=
  1 ≤ d.year ∧ d.year ≤ 9999 ∧ 1 ≤ d.month ∧ d.month ≤ 12 ∧
    1 ≤ d.day ∧ d.day ≤ daysInMonth d.year d.month

instance (d : Date) : Decidable (ValidDate d) := by
  unfold ValidDate; infer_instance

/-- Days in the years before year `y`, for the proleptic Gregorian calendar. -/
def daysBeforeYear (y : Int) : Int :=
  let p := y - 1
  365 * p + p.fdiv 4 - p.fdiv 100 + p.fdiv 400

/-- Days in the months of year `y` strictly before month `m`. -/
def daysBeforeMonth (y m : Int) : Int :=
  (if m = 1 then 0 else if m = 2 then 31 else if m = 3 then 59
   else if m = 4 then 90 else if m = 5 then 120 else if m = 6 then 151
   else if m = 7 then 181 else if m = 8 then 212 else if m = 9 then 243
   else if m = 10 then 273 else if m = 11 then 304 else 334) +
  (if 2 < m ∧ isLeap y then 1 else 0)

/-- Python `date.toordinal()`: day 1 is 0001-01-01. -/
def toOrdinal (d : Date) : Int :=
  daysBeforeYear d.year + daysBeforeMonth d.year d.month + d.day

/-- Python `date.weekday()`: Monday = 0 .. Sunday = 6. -/
def weekdayOf (d : Date) : Int :=
  (toOrdinal d + 6) % 7

/-- The calendar successor of a date; `none` past 9999-12-31
(where Python's date arithmetic raises `OverflowError`). -/
def succDate (d : Date) : Option Date :=
  if d.day < daysInMonth d.year d.month then some ⟨d.year, d.month, d.day + 1⟩
  else if d.month < 12 then some ⟨d.year, d.month + 1, 1⟩
  else if d.year < 9999 then some ⟨d.year + 1, 1, 1⟩
  else none

/-- The calendar predecessor of a date; `none` before 0001-01-01. -/
def predDate (d : Date) : Option Date :=
  if 1 < d.day then some ⟨d.year, d.month, d.day - 1⟩
  else if 1 < d.month then some ⟨d.year, d.month - 1, daysInMonth d.year (d.month - 1)⟩
  else if 1 < d.year then some ⟨d.year - 1, 12, 31⟩
  else none

/-- `n`-fold calendar successor. -/
def iterSucc : Nat → Date → Option Date
  | 0, d => some d
  | Nat.succ n, d =>
    match succDate d with
    | none => none
    | some d' => iterSucc n d'

/-- `n`-fold calendar predecessor. -/
def iterPred : Nat → Date → Option Date
  | 0, d => some d
  | Nat.succ n, d =>
    match predDate d with
    | none => none
    | some d' => iterPred n d'

/-- Shift a date by `n` days (`date + timedelta(days=n)`);
`none` models the `OverflowError` raised when the result is unrepresentable. -/
def addDaysDate (d : Date) (n : Int) : Option Date :=
  if 0 ≤ n then iterSucc n.toNat d else iterPred (-n).toNat d

/-- `datetime + timedelta(days=n)`: shifts the date, keeps the time-of-day,
surfaces `OverflowError` when out of range. -/
def timedeltaAddDays (dt : DateTime) (n : Int) : Except PyExc DateTime :=
  match addDaysDate dt.date n with
  | some d => Except.ok ⟨d, dt.time⟩
  | none => Except.error PyExc.overflowError

/-- `date + relativedelta(months=off)`: month arithmetic with floor-division
normalisation, clamping the day to the target month's length.  `none` models
the `ValueError` raised when the resulting year leaves 1..9999. -/
def monthShift (d : Date) (off : Int) : Option Date :=
  let ym : Int := 12 * d.year + (d.month - 1) + off
  let y := ym.fdiv 12
  let m := ym.fmod 12 + 1
  if 1 ≤ y ∧ y ≤ 9999 then some ⟨y, m, min d.day (daysInMonth y m)⟩ else none

/-- `CompoundRelativeParser._calculate_month_date`, fallback branch: invalid
day in the shifted month; compute the last day of that month and use the
requested day only if it fits.  Any failure inside is swallowed (`except:`),
yielding `none`. -/
def calculate_month_fallback (base : DateTime) (off day : Int) : Option DateTime :=
  match monthShift base.date off with
  | none => none
  | some t =>
    match monthShift ⟨t.year, t.month, 1⟩ 1 with
    | none => none
    | some t2 =>
      match predDate t2 with
      | none => none
      | some t3 =>
        if day ≤ t3.day then
          if 1 ≤ day ∧ day ≤ daysInMonth t3.year t3.month then
            some ⟨⟨t3.year, t3.month, day⟩, base.time⟩
          else none
        else some ⟨t3, base.time⟩

/-- `CompoundRelativeParser._calculate_month_date`: shift the base by
`off` months, set the requested day, falling back to month-end clamping
when the direct `replace(day=day)` raises `ValueError`. -/
def calculate_month_date (base : DateTime) (off day : Int) : Option DateTime :=
  match monthShift base.date off with
  | none => calculate_month_fallback base off day
  | some t =>
    if 1 ≤ day ∧ day ≤ daysInMonth t.year t.month then
      some ⟨⟨t.year, t.month, day⟩, base.time⟩
    else calculate_month_fallback base off day

/-- `CompoundRelativeParser._calculate_target_date`: signed weekday delta
plus the week offset times seven, not normalised into 0..6. -/
def calculate_target_date (base : DateTime) (weekOff targetWd : Int) :
    Except PyExc DateTime :=
  timedeltaAddDays base ((targetWd - weekdayOf base.date) + weekOff * 7)

/-! ## Embedded regular-expression matchers -/

/-- Whitespace characters recognised by `\s` and `str.strip`. -/
def isPySpace (c : Char) : Bool :=
  c == ' ' || c == '\t' || c == '\n' || c == '\r' || c.toNat == 11 || c.toNat == 12

/-- `str.strip()`: remove leading and trailing whitespace. -/
def pyStrip (s : List Char) : List Char :=
  ((s.dropWhile isPySpace).reverse.dropWhile isPySpace).reverse

/-- `str.lower()` on one character, covering the alphabets appearing in the
locale patterns (ASCII, Latin-1 letters, Cyrillic); other characters are
unaffected. -/
def pyLower (c : Char) : Char :=
  if 'A' ≤ c ∧ c ≤ 'Z' then Char.ofNat (c.toNat + 32)
  else if 0xC0 ≤ c.toNat ∧ c.toNat ≤ 0xDE ∧ c.toNat ≠ 0xD7 then Char.ofNat (c.toNat + 32)
  else if 0x410 ≤ c.toNat ∧ c.toNat ≤ 0x42F then Char.ofNat (c.toNat + 32)
  else if c.toNat == 0x401 then Char.ofNat 0x451
  else c

/-- `str.lower()` on a whole string. -/
def lowerStr (s : String) : String := String.mk (s.toList.map pyLower)

/-- Shorthand: the character list of a string literal. -/
def toL (s : String) : List Char := s.toList

/-- Match a literal as a prefix, returning the remaining input. -/
def matchLit : List Char → List Char → Option (List Char)
  | [], s => some s
  | _ :: _, [] => none
  | p :: ps, c :: cs => if p = c then matchLit ps cs else none

/-- First-match-wins alternation of literals, returning the matched
alternative (the captured group) and the remaining input. -/
def matchAlt : List (List Char) → List Char → Option (List Char × List Char)
  | [], _ => none
  | a :: rest, s =>
    match matchLit a s with
    | some r => some (a, r)
    | none => matchAlt rest s

/-- `\s+`: one or more whitespace characters, greedy. -/
def ws1 : List Char → Option (List Char)
  | [] => none
  | c :: cs => if isPySpace c then some (cs.dropWhile isPySpace) else none

/-- `\s*`: zero or more whitespace characters, greedy. -/
def ws0 (s : List Char) : List Char := s.dropWhile isPySpace

/-- A nonempty greedy run of characters satisfying `p` (a `[...]+` class). -/
def classRun1 (p : Char → Bool) : List Char → Option (List Char × List Char)
  | [] => none
  | c :: cs => if p c then some (c :: cs.takeWhile p, cs.dropWhile p) else none

def isAsciiDigit (c : Char) : Bool := '0' ≤ c && c ≤ '9'

/-- `\d{1,2}`: one or two ASCII digits, greedy. -/
def upTo2Digits : List Char → Option (List Char × List Char)
  | [] => none
  | c :: cs =>
    if isAsciiDigit c then
      match cs with
      | c2 :: cs2 => if isAsciiDigit c2 then some ([c, c2], cs2) else some ([c], cs)
      | [] => some ([c], [])
    else none

/-- An optional literal at the end of a pattern: consume it when present. -/
def optLit (pat : List Char) (s : List Char) : List Char :=
  match matchLit pat s with
  | some r => r
  | none => s

/-- The optional English ordinal suffix `(?:st|nd|rd|th)?`. -/
def optOrdSuffix (s : List Char) : List Char :=
  match matchAlt [['s','t'], ['n','d'], ['r','d'], ['t','h']] s with
  | some (_, r) => r
  | none => s

/-- Generic weekday pattern `(q1|q2|q3)\s+(w1|...|w7)` of the European
locales, anchored at the start; trailing input is returned unmatched. -/
def euWeek (quals days : List (List Char)) (s : List Char) :
    Option (List Char × List Char × List Char) :=
  match matchAlt quals s with
  | none => none
  | some (q, r1) =>
    match ws1 r1 with
    | none => none
    | some r2 =>
      match matchAlt days r2 with
      | none => none
      | some (w, r3) => some (q, w, r3)

/-- Generic month pattern `(q1|q2|q3)\s+MONTH\s+(\d{1,2})` of the European
locales other than English. -/
def euMonth (quals : List (List Char)) (monthWord : List Char) (s : List Char) :
    Option (List Char × List Char × List Char) :=
  match matchAlt quals s with
  | none => none
  | some (q, r1) =>
    match ws1 r1 with
    | none => none
    | some r2 =>
      match matchLit monthWord r2 with
      | none => none
      | some r3 =>
        match ws1 r3 with
        | none => none
        | some r4 =>
          match upTo2Digits r4 with
          | none => none
          | some (d, r5) => some (q, d, r5)

def enQuals : List (List Char) := [toL "last", toL "next", toL "this"]

def enDays : List (List Char) :=
  [toL "monday", toL "tuesday", toL "wednesday", toL "thursday",
   toL "friday", toL "saturday", toL "sunday"]

/-- English month pattern: `euMonth` plus the optional ordinal suffix. -/
def enMonth (s : List Char) : Option (List Char × List Char × List Char) :=
  match euMonth enQuals (toL "month") s with
  | some (q, d, r) => some (q, d, optOrdSuffix r)
  | none => none

def esQuals : List (List Char) := [toL "pasado", toL "próximo", toL "este"]

def esDays : List (List Char) :=
  [toL "lunes", toL "martes", toL "miércoles", toL "jueves",
   toL "viernes", toL "sábado", toL "domingo"]

def frQuals : List (List Char) := [toL "dernier", toL "prochain", toL "ce"]

def frDays : List (List Char) :=
  [toL "lundi", toL "mardi", toL "mercredi", toL "jeudi",
   toL "vendredi", toL "samedi", toL "dimanche"]

def deQuals : List (List Char) := [toL "letzten", toL "nächsten", toL "diesen"]

def deDays : List (List Char) :=
  [toL "montag", toL "dienstag", toL "mittwoch", toL "donnerstag",
   toL "freitag", toL "samstag", toL "sonntag"]

def ruQuals : List (List Char) := [toL "прошлый", toL "следующий", toL "этот"]

def ruDays : List (List Char) :=
  [toL "понедельник", toL "вторник", toL "среда", toL "четверг",
   toL "пятница", toL "суббота", toL "воскресенье"]

def itQuals : List (List Char) := [toL "scorso", toL "prossimo", toL "questo"]

def itDays : List (List Char) :=
  [toL "lunedì", toL "martedì", toL "mercoledì", toL "giovedì",
   toL "venerdì", toL "sabato", toL "domenica"]

def ptQuals : List (List Char) := [toL "passado", toL "próximo", toL "este"]

def ptDays : List (List Char) :=
  [toL "segunda", toL "terça", toL "quarta", toL "quinta",
   toL "sexta", toL "sábado", toL "domingo"]

def zhQuals : List (List Char) := [['上'], ['下'], ['本'], ['这']]

def zhWdChars : List (List Char) :=
  [['一'], ['二'], ['三'], ['四'], ['五'], ['六'], ['日'], ['天'],
   ['1'], ['2'], ['3'], ['4'], ['5'], ['6'], ['7']]

/-- zh weekday pattern `(上|下|本|这)周(?:星期)?([一二三四五六日天1234567])`. -/
def zhWeek (s : List Char) : Option (List Char × List Char × List Char) :=
  match matchAlt zhQuals s with
  | none => none
  | some (q, r1) =>
    match matchLit ['周'] r1 with
    | none => none
    | some r2 =>
      match (match matchLit ['星', '期'] r2 with
             | some r3 => matchAlt zhWdChars r3
             | none => none) with
      | some (w, r4) => some (q, w, r4)
      | none =>
        match matchAlt zhWdChars r2 with
        | none => none
        | some (w, r4) => some (q, w, r4)

def isZhMonthDigit (c : Char) : Bool :=
  c == '一' || c == '二' || c == '三' || c == '四' || c == '五' ||
  c == '六' || c == '七' || c == '八' || c == '九' || c == '十'

/-- The required day suffix `(?:号|日)` of the zh month pattern. -/
def zhDaySuffix (s : List Char) : Option (List Char) :=
  match matchAlt [['号'], ['日']] s with
  | some (_, r) => some r
  | none => none

/-- The ASCII alternative `[0-9]+` of the zh day group, with its suffix. -/
def zhAsciiTail (s : List Char) : Option (List Char × List Char) :=
  match classRun1 isAsciiDigit s with
  | some (d, r) =>
    match zhDaySuffix r with
    | some r2 => some (d, r2)
    | none => none
  | none => none

/-- The zh day group `([一二三四五六七八九十]+|[0-9]+)(?:号|日)`:
the numeral-word branch is tried first, then the ASCII branch. -/
def zhMonthTail (s : List Char) : Option (List Char × List Char) :=
  match classRun1 isZhMonthDigit s with
  | some (d, r) =>
    match zhDaySuffix r with
    | some r2 => some (d, r2)
    | none => zhAsciiTail s
  | none => zhAsciiTail s

/-- zh month pattern `(上|下|本|这)(?:个)?月(...)(?:号|日)`. -/
def zhMonth (s : List Char) : Option (List Char × List Char × List Char) :=
  match matchAlt zhQuals s with
  | none => none
  | some (q, r1) =>
    match (match matchLit ['个', '月'] r1 with
           | some r2 => zhMonthTail r2
           | none => none) with
    | some (d, r) => some (q, d, r)
    | none =>
      match matchLit ['月'] r1 with
      | none => none
      | some r2 =>
        match zhMonthTail r2 with
        | none => none
        | some (d, r) => some (q, d, r)

def jaQuals : List (List Char) := [['先'], ['来'], ['今']]

def jaWdChars : List (List Char) :=
  [['月'], ['火'], ['水'], ['木'], ['金'], ['土'], ['日']]

/-- Weekday character, required `曜`, optional trailing `日`. -/
def jaWeekTail (s : List Char) : Option (List Char × List Char) :=
  match matchAlt jaWdChars s with
  | none => none
  | some (w, r) =>
    match matchLit ['曜'] r with
    | none => none
    | some r2 => some (w, optLit ['日'] r2)

/-- ja weekday pattern `(先|来|今)週の?(月|火|水|木|金|土|日)曜日?`. -/
def jaWeek (s : List Char) : Option (List Char × List Char × List Char) :=
  match matchAlt jaQuals s with
  | none => none
  | some (q, r1) =>
    match matchLit ['週'] r1 with
    | none => none
    | some r2 =>
      match (match matchLit ['の'] r2 with
             | some r3 => jaWeekTail r3
             | none => none) with
      | some (w, r) => some (q, w, r)
      | none =>
        match jaWeekTail r2 with
        | none => none
        | some (w, r) => some (q, w, r)

/-- ja month pattern `(先|来|今)月(\d{1,2})日`. -/
def jaMonth (s : List Char) : Option (List Char × List Char × List Char) :=
  match matchAlt jaQuals s with
  | none => none
  | some (q, r1) =>
    match matchLit ['月'] r1 with
    | none => none
    | some r2 =>
      match upTo2Digits r2 with
      | none => none
      | some (d, r3) =>
        match matchLit ['日'] r3 with
        | none => none
        | some r4 => some (q, d, r4)

def koQuals : List (List Char) := [toL "지난", toL "다음", toL "이번"]

def koWdChars : List (List Char) :=
  [['월'], ['화'], ['수'], ['목'], ['금'], ['토'], ['일']]

/-- `\s*`, weekday character and the required `요일` suffix. -/
def koWeekTail (s : List Char) : Option (List Char × List Char) :=
  match matchAlt koWdChars (ws0 s) with
  | none => none
  | some (w, r) =>
    match matchLit ['요', '일'] r with
    | none => none
    | some r2 => some (w, r2)

/-- ko weekday pattern `(지난|다음|이번)\s*주?\s*(월|화|수|목|금|토|일)요일`. -/
def koWeek (s : List Char) : Option (List Char × List Char × List Char) :=
  match matchAlt koQuals s with
  | none => none
  | some (q, r1) =>
    match (match matchLit ['주'] (ws0 r1) with
           | some r3 => koWeekTail r3
           | none => none) with
    | some (w, r) => some (q, w, r)
    | none =>
      match koWeekTail (ws0 r1) with
      | none => none
      | some (w, r) => some (q, w, r)

/-- ko month pattern `(지난|다음|이번)\s*달\s*(\d{1,2})일`. -/
def koMonth (s : List Char) : Option (List Char × List Char × List Char) :=
  match matchAlt koQuals s with
  | none => none
  | some (q, r1) =>
    match matchLit ['달'] (ws0 r1) with
    | none => none
    | some r2 =>
      match upTo2Digits (ws0 r2) with
      | none => none
      | some (d, r3) =>
        match matchLit ['일'] r3 with
        | none => none
        | some r4 => some (q, d, r4)

/-! ## Locale tables and the dispatcher -/

/-- The ten canonical locale keys, in `language_patterns` insertion order. -/
inductive Lang where
  | zh | en | es | fr | de | ja | ru | it | pt | ko
deriving DecidableEq, Repr

def langOrder : List Lang :=
  [Lang.zh, Lang.en, Lang.es, Lang.fr, Lang.de,
   Lang.ja, Lang.ru, Lang.it, Lang.pt, Lang.ko]

/-- The `week_pattern` of a locale, applied to already-stripped text.
Case-insensitive patterns act on the lowercased text. -/
def week_match (k : Lang) (s : List Char) :
    Option (List Char × List Char × List Char) :=
  match k with
  | Lang.zh => zhWeek s
  | Lang.en => euWeek enQuals enDays (s.map pyLower)
  | Lang.es => euWeek esQuals esDays (s.map pyLower)
  | Lang.fr => euWeek frQuals frDays (s.map pyLower)
  | Lang.de => euWeek deQuals deDays (s.map pyLower)
  | Lang.ja => jaWeek s
  | Lang.ru => euWeek ruQuals ruDays (s.map pyLower)
  | Lang.it => euWeek itQuals itDays (s.map pyLower)
  | Lang.pt => euWeek ptQuals ptDays (s.map pyLower)
  | Lang.ko => koWeek s

/-- The `month_pattern` of a locale, applied to already-stripped text. -/
def month_match (k : Lang) (s : List Char) :
    Option (List Char × List Char × List Char) :=
  match k with
  | Lang.zh => zhMonth s
  | Lang.en => enMonth (s.map pyLower)
  | Lang.es => euMonth esQuals (toL "mes") (s.map pyLower)
  | Lang.fr => euMonth frQuals (toL "mois") (s.map pyLower)
  | Lang.de => euMonth deQuals (toL "monat") (s.map pyLower)
  | Lang.ja => jaMonth s
  | Lang.ru => euMonth ruQuals (toL "месяц") (s.map pyLower)
  | Lang.it => euMonth itQuals (toL "mese") (s.map pyLower)
  | Lang.pt => euMonth ptQuals (toL "mês") (s.map pyLower)
  | Lang.ko => koMonth s

/-- `dict.get` over an association list. -/
def dictGet {α : Type} : List (String × α) → String → Option α
  | [], _ => none
  | (a, v) :: rest, k => if a = k then some v else dictGet rest k

/-- The `relative_map` of each locale. -/
def relative_map (k : Lang) : List (String × Int) :=
  match k with
  | Lang.zh => [("上", -1), ("下", 1), ("本", 0), ("这", 0)]
  | Lang.en => [("last", -1), ("next", 1), ("this", 0)]
  | Lang.es => [("pasado", -1), ("próximo", 1), ("este", 0)]
  | Lang.fr => [("dernier", -1), ("prochain", 1), ("ce", 0)]
  | Lang.de => [("letzten", -1), ("nächsten", 1), ("diesen", 0)]
  | Lang.ja => [("先", -1), ("来", 1), ("今", 0)]
  | Lang.ru => [("прошлый", -1), ("следующий", 1), ("этот", 0)]
  | Lang.it => [("scorso", -1), ("prossimo", 1), ("questo", 0)]
  | Lang.pt => [("passado", -1), ("próximo", 1), ("este", 0)]
  | Lang.ko => [("지난", -1), ("다음", 1), ("이번", 0)]

/-- The `weekday_map` of each locale. -/
def weekday_map (k : Lang) : List (String × Int) :=
  match k with
  | Lang.zh =>
    [("一", 0), ("二", 1), ("三", 2), ("四", 3), ("五", 4), ("六", 5),
     ("日", 6), ("天", 6), ("1", 0), ("2", 1), ("3", 2), ("4", 3),
     ("5", 4), ("6", 5), ("7", 6)]
  | Lang.en =>
    [("monday", 0), ("tuesday", 1), ("wednesday", 2), ("thursday", 3),
     ("friday", 4), ("saturday", 5), ("sunday", 6)]
  | Lang.es =>
    [("lunes", 0), ("martes", 1), ("miércoles", 2), ("jueves", 3),
     ("viernes", 4), ("sábado", 5), ("domingo", 6)]
  | Lang.fr =>
    [("lundi", 0), ("mardi", 1), ("mercredi", 2), ("jeudi", 3),
     ("vendredi", 4), ("samedi", 5), ("dimanche", 6)]
  | Lang.de =>
    [("montag", 0), ("dienstag", 1), ("mittwoch", 2), ("donnerstag", 3),
     ("freitag", 4), ("samstag", 5), ("sonntag", 6)]
  | Lang.ja =>
    [("月", 0), ("火", 1), ("水", 2), ("木", 3), ("金", 4), ("土", 5), ("日", 6)]
  | Lang.ru =>
    [("понедельник", 0), ("вторник", 1), ("среда", 2), ("четверг", 3),
     ("пятница", 4), ("суббота", 5), ("воскресенье", 6)]
  | Lang.it =>
    [("lunedì", 0), ("martedì", 1), ("mercoledì", 2), ("giovedì", 3),
     ("venerdì", 4), ("sabato", 5), ("domenica", 6)]
  | Lang.pt =>
    [("segunda", 0), ("terça", 1), ("quarta", 2), ("quinta", 3),
     ("sexta", 4), ("sábado", 5), ("domingo", 6)]
  | Lang.ko =>
    [("월", 0), ("화", 1), ("수", 2), ("목", 3), ("금", 4), ("토", 5), ("일", 6)]

/-- The zh `number_map` of spelled-out day numbers. -/
def number_map : List (String × Int) :=
  [("一", 1), ("二", 2), ("三", 3), ("四", 4), ("五", 5), ("六", 6),
   ("七", 7), ("八", 8), ("九", 9), ("十", 10), ("十一", 11), ("十二", 12),
   ("十三", 13), ("十四", 14), ("十五", 15), ("十六", 16), ("十七", 17),
   ("十八", 18), ("十九", 19), ("二十", 20), ("二十一", 21), ("二十二", 22),
   ("二十三", 23), ("二十四", 24), ("二十五", 25), ("二十六", 26),
   ("二十七", 27), ("二十八", 28), ("二十九", 29), ("三十", 30), ("三十一", 31)]

/-- `language_code_map`, in insertion order. -/
def language_code_map : List (Lang × List String) :=
  [(Lang.zh, ["zh", "zh-cn", "zh-hans", "zh-tw", "zh-hant"]),
   (Lang.en, ["en", "en-us", "en-gb", "en-au"]),
   (Lang.es, ["es", "es-es", "es-mx", "es-ar"]),
   (Lang.fr, ["fr", "fr-fr", "fr-ca"]),
   (Lang.de, ["de", "de-de", "de-at"]),
   (Lang.it, ["it", "it-it"]),
   (Lang.pt, ["pt", "pt-pt", "pt-br"]),
   (Lang.ru, ["ru", "ru-ru"]),
   (Lang.ja, ["ja", "ja-jp"]),
   (Lang.ko, ["ko", "ko-kr"])]

def findLangKey : List (Lang × List String) → String → Option Lang
  | [], _ => none
  | (k, codes) :: rest, lc =>
    if codes.contains lc then some k else findLangKey rest lc

/-- `CompoundRelativeParser._get_language_key`. -/
def get_language_key (code : String) : Option Lang :=
  findLangKey language_code_map (lowerStr code)

/-- The value of a nonempty all-ASCII-digit string. -/
def digitsVal (l : List Char) : Int :=
  l.foldl (fun acc c => acc * 10 + ((c.toNat : Int) - 48)) 0

/-- Python `int(str)` restricted to ASCII digit strings with an optional
sign and surrounding whitespace; `none` models `ValueError`. -/
def pyIntParse (tok : List Char) : Option Int :=
  match pyStrip tok with
  | [] => none
  | c :: cs =>
    if c = '-' then
      if cs ≠ [] ∧ cs.all isAsciiDigit then some (-(digitsVal cs)) else none
    else if c = '+' then
      if cs ≠ [] ∧ cs.all isAsciiDigit then some (digitsVal cs) else none
    else if (c :: cs).all isAsciiDigit then some (digitsVal (c :: cs)) else none

/-- `CompoundRelativeParser._parse_day_number`: integer parse first, then
the zh numeral-word map. -/
def parse_day_number (tok : List Char) (k : Lang) : Option Int :=
  match pyIntParse tok with
  | some n => some n
  | none => if k = Lang.zh then dictGet number_map (String.mk tok) else none

/-- `CompoundRelativeParser._parse_with_language`: month-day pattern first
(short-circuiting), then the weekday pattern. -/
def parse_with_language (ds : List Char) (base : DateTime) (k : Lang) :
    Except PyExc (Option DateTime) :=
  match month_match k (pyStrip ds) with
  | some (g1, g2, _) =>
    match dictGet (relative_map k) (String.mk (g1.map pyLower)) with
    | none => Except.ok none
    | some off =>
      match parse_day_number g2 k with
      | none => Except.ok none
      | some day =>
        if day < 1 ∨ 31 < day then Except.ok none
        else Except.ok (calculate_month_date base off day)
  | none =>
    match week_match k (pyStrip ds) with
    | none => Except.ok none
    | some (g1, g2, _) =>
      match dictGet (relative_map k) (String.mk (g1.map pyLower)),
            dictGet (weekday_map k) (String.mk (g2.map pyLower)) with
      | some w, some t => (calculate_target_date base w t).map some
      | some _, none => Except.ok none
      | none, _ => Except.ok none

/-- The all-locale scan of `CompoundRelativeParser.parse`, in declared
order; an exception raised by a locale propagates out of the loop. -/
def scanLangs : List Lang → List Char → DateTime → Except PyExc (Option DateTime)
  | [], _, _ => Except.ok none
  | k :: ks, ds, base =>
    match parse_with_language ds base k with
    | Except.error e => Except.error e
    | Except.ok (some d) => Except.ok (some d)
    | Except.ok none => scanLangs ks ds base

/-- `CompoundRelativeParser.parse` with an explicit base time.  A hint that
is falsy (empty) or does not resolve falls through to the all-locale scan. -/
def parse (ds : String) (base : DateTime) (language : Option String) :
    Except PyExc (Option DateTime) :=
  match language with
  | some code =>
    if code = "" then scanLangs langOrder ds.toList base
    else
      match get_language_key code with
      | some k => parse_with_language ds.toList base k
      | none => scanLangs langOrder ds.toList base
  | none => scanLangs langOrder ds.toList base

/-- One locale's applicability check: either pattern matches the stripped text. -/
def applicable_for (k : Lang) (ds : List Char) : Bool :=
  (month_match k (pyStrip ds)).isSome || (week_match k (pyStrip ds)).isSome

/-- `CompoundRelativeParser.is_applicable`. -/
def is_applicable (ds : String) (language : Option String) : Bool :=
  match language with
  | some code =>
    if code = "" then langOrder.any (fun k => applicable_for k ds.toList)
    else
      match get_language_key code with
      | some k => applicable_for k ds.toList
      | none => langOrder.any (fun k => applicable_for k ds.toList)
  | none => langOrder.any (fun k => applicable_for k ds.toList)

/-- The base time used by the repository's examples:
Monday 2024-01-15 10:00:00. -/
def base202401 : DateTime := ⟨⟨2024, 1, 15⟩, ⟨10, 0, 0⟩⟩

/-- Sunday 2024-03-31 10:00:00, base of the month-end clamping example. -/
def base20240331 : DateTime := ⟨⟨2024, 3, 31⟩, ⟨10, 0, 0⟩⟩

/-- The last representable day, 9999-12-31 10:00:00. -/
def base99991231 : DateTime := ⟨⟨9999, 12, 31⟩, ⟨10, 0, 0⟩⟩

deriving instance DecidableEq for Except

/-! ## Predicates about the locale tables -/

/-- Every qualifier offset of the map lies in {-1, 0, 1}. -/
def qualValuesOk (l : List (String × Int)) : Bool :=
  l.all fun p => p.2 == -1 || p.2 == 0 || p.2 == 1

/-- Every weekday index of the map lies in 0..6. -/
def wdValuesInRange (l : List (String × Int)) : Bool :=
  l.all fun p => decide (0 ≤ p.2 ∧ p.2 ≤ 6)

/-- All seven indices 0..6 occur among the map's values. -/
def wdCovers (l : List (String × Int)) : Bool :=
  (([0, 1, 2, 3, 4, 5, 6] : List Int)).all fun i => (l.map Prod.snd).contains i

/-- Each index 0..6 is the value of exactly one key of the map. -/
def wdUnique (l : List (String × Int)) : Bool :=
  (([0, 1, 2, 3, 4, 5, 6] : List Int)).all fun i => (l.map Prod.snd).count i == 1

/-- The nine locales other than zh. -/
def nonZhLangs : List Lang :=
  [Lang.en, Lang.es, Lang.fr, Lang.de, Lang.ja, Lang.ru, Lang.it, Lang.pt, Lang.ko]

/-! ## Calendar lemmas -/

theorem daysInMonth_pos (y m : Int) : 1 ≤ daysInMonth y m := by
  unfold daysInMonth; split_ifs <;> norm_num

theorem daysInMonth_le_31 (y m : Int) : daysInMonth y m ≤ 31 := by
  unfold daysInMonth; split_ifs <;> norm_num

theorem daysInMonth_jan (y : Int) : daysInMonth y 1 = 31 := by
  norm_num [daysInMonth]

theorem daysInMonth_dec (y : Int) : daysInMonth y 12 = 31 := by
  norm_num [daysInMonth]

theorem weekdayOf_bounds (d : Date) : 0 ≤ weekdayOf d ∧ weekdayOf d < 7 :=
  ⟨Int.emod_nonneg _ (by norm_num), Int.emod_lt_of_pos _ (by norm_num)⟩

/-- One forward step stays defined and within one year of the start,
as long as the start year is at most 9998 and at most 12 steps were taken. -/
theorem succDate_step (y0 : Int) (k : Nat) (d : Date)
    (hk : k ≤ 12) (hy : y0 ≤ 9998) (hv : ValidDate d)
    (hinv : d.year = y0 ∨ (d.year = y0 + 1 ∧ d.month = 1 ∧ d.day ≤ 1 + k)) :
    ∃ d', succDate d = some d' ∧ ValidDate d' ∧
      (d'.year = y0 ∨ (d'.year = y0 + 1 ∧ d'.month = 1 ∧ d'.day ≤ 1 + (k + 1 : Nat))) := by
  obtain ⟨h1, h2, h3, h4, h5, h6⟩ := hv
  by_cases hd : d.day < daysInMonth d.year d.month
  · refine ⟨⟨d.year, d.month, d.day + 1⟩, by simp [succDate, hd], ?_, ?_⟩
    · exact ⟨h1, h2, h3, h4, by dsimp only; omega, by dsimp only; omega⟩
    · rcases hinv with h | ⟨ha, hb, hc⟩
      · exact Or.inl h
      · exact Or.inr ⟨ha, hb, by dsimp only; omega⟩
  · rcases hinv with hyr | ⟨ha, hb, hc⟩
    · by_cases hm : d.month < 12
      · refine ⟨⟨d.year, d.month + 1, 1⟩, by simp [succDate, hd, hm], ?_, Or.inl hyr⟩
        exact ⟨h1, h2, by dsimp only; omega, by dsimp only; omega, by norm_num,
          daysInMonth_pos _ _⟩
      · have h9 : d.year < 9999 := by omega
        refine ⟨⟨d.year + 1, 1, 1⟩, by simp [succDate, hd, hm, h9], ?_,
          Or.inr ⟨by dsimp only; omega, rfl, by dsimp only; omega⟩⟩
        refine ⟨by dsimp only; omega, by dsimp only; omega, by norm_num, by norm_num,
          by norm_num, ?_⟩
        rw [daysInMonth_jan]; norm_num
    · exfalso
      rw [hb, daysInMonth_jan] at h6 hd
      omega

theorem iterSucc_ok (n : Nat) : ∀ (k : Nat) (d : Date) (y0 : Int), n + k ≤ 13 →
    y0 ≤ 9998 → ValidDate d →
    (d.year = y0 ∨ (d.year = y0 + 1 ∧ d.month = 1 ∧ d.day ≤ 1 + k)) →
    ∃ d', iterSucc n d = some d' := by
  induction n with
  | zero => exact fun k d y0 _ _ _ _ => ⟨d, rfl⟩
  | succ m ih =>
    intro k d y0 hn hy hv hinv
    obtain ⟨d', hstep, hv', hinv'⟩ := succDate_step y0 k d (by omega) hy hv hinv
    obtain ⟨d'', h⟩ := ih (k + 1) d' y0 (by omega) hy hv' hinv'
    exact ⟨d'', by simp [iterSucc, hstep, h]⟩

/-- One backward step stays defined and within one year of the start,
as long as the start year is at least 2 and at most 12 steps were taken. -/
theorem predDate_step (y0 : Int) (k : Nat) (d : Date)
    (hk : k ≤ 12) (hy : 2 ≤ y0) (hv : ValidDate d)
    (hinv : d.year = y0 ∨ (d.year = y0 - 1 ∧ d.month = 12 ∧ 31 - (k : Int) ≤ d.day)) :
    ∃ d', predDate d = some d' ∧ ValidDate d' ∧
      (d'.year = y0 ∨ (d'.year = y0 - 1 ∧ d'.month = 12 ∧ 31 - ((k + 1 : Nat) : Int) ≤ d'.day)) := by
  obtain ⟨h1, h2, h3, h4, h5, h6⟩ := hv
  by_cases hd : 1 < d.day
  · refine ⟨⟨d.year, d.month, d.day - 1⟩, by simp [predDate, hd], ?_, ?_⟩
    · exact ⟨h1, h2, h3, h4, by dsimp only; omega, by dsimp only; omega⟩
    · rcases hinv with h | ⟨ha, hb, hc⟩
      · exact Or.inl h
      · exact Or.inr ⟨ha, hb, by dsimp only; omega⟩
  · rcases hinv with hyr | ⟨ha, hb, hc⟩
    · by_cases hm : 1 < d.month
      · refine ⟨⟨d.year, d.month - 1, daysInMonth d.year (d.month - 1)⟩,
          by simp [predDate, hd, hm], ?_, Or.inl hyr⟩
        exact ⟨h1, h2, by dsimp only; omega, by dsimp only; omega, daysInMonth_pos _ _,
          le_refl _⟩
      · have hy1 : 1 < d.year := by omega
        refine ⟨⟨d.year - 1, 12, 31⟩, by simp [predDate, hd, hm, hy1], ?_,
          Or.inr ⟨by dsimp only; omega, rfl, by dsimp only; push_cast; omega⟩⟩
        refine ⟨by dsimp only; omega, by dsimp only; omega, by norm_num, by norm_num,
          by norm_num, ?_⟩
        rw [daysInMonth_dec]
    · exfalso
      omega

theorem iterPred_ok (n : Nat) : ∀ (k : Nat) (d : Date) (y0 : Int), n + k ≤ 13 →
    2 ≤ y0 → ValidDate d →
    (d.year = y0 ∨ (d.year = y0 - 1 ∧ d.month = 12 ∧ 31 - (k : Int) ≤ d.day)) →
    ∃ d', iterPred n d = some d' := by
  induction n with
  | zero => exact fun k d y0 _ _ _ _ => ⟨d, rfl⟩
  | succ m ih =>
    intro k d y0 hn hy hv hinv
    obtain ⟨d', hstep, hv', hinv'⟩ := predDate_step y0 k d (by omega) hy hv hinv
    obtain ⟨d'', h⟩ := ih (k + 1) d' y0 (by omega) hy hv' hinv'
    exact ⟨d'', by simp [iterPred, hstep, h]⟩

/-- Day shifts of at most 13 days never overflow when the base year is
inside 2..9998. -/
theorem addDaysDate_ok (d : Date) (n : Int) (hv : ValidDate d)
    (h2 : 2 ≤ d.year) (h9 : d.year ≤ 9998) (hlo : -13 ≤ n) (hhi : n ≤ 13) :
    ∃ d', addDaysDate d n = some d' := by
  unfold addDaysDate
  by_cases hn : 0 ≤ n
  · rw [if_pos hn]
    exact iterSucc_ok n.toNat 0 d d.year (by omega) (by omega) hv (Or.inl rfl)
  · rw [if_neg hn]
    exact iterPred_ok (-n).toNat 0 d d.year (by omega) (by omega) hv (Or.inl rfl)

/-- Day shifts preserve the time-of-day exactly. -/
theorem timedeltaAddDays_time (dt : DateTime) (n : Int) (r : DateTime)
    (h : timedeltaAddDays dt n = Except.ok r) : r.time = dt.time := by
  unfold timedeltaAddDays at h
  cases hd : addDaysDate dt.date n with
  | some d => rw [hd] at h; injection h with h'; rw [← h']
  | none => rw [hd] at h; exact absurd h (by simp)

/-- Shape of a successful month shift: a real month 1..12, year in range,
the month counter shifted by `off`, the day clamped to the month length. -/
theorem monthShift_char (d : Date) (off : Int) (t : Date)
    (h : monthShift d off = some t) :
    1 ≤ t.year ∧ t.year ≤ 9999 ∧ 1 ≤ t.month ∧ t.month ≤ 12 ∧
    12 * t.year + (t.month - 1) = 12 * d.year + (d.month - 1) + off ∧
    t.day = min d.day (daysInMonth t.year t.month) := by
  simp only [monthShift] at h
  rw [Int.fdiv_eq_ediv _ (by norm_num), Int.fmod_eq_emod _ (by norm_num)] at h
  split at h
  case isTrue hcond =>
    injection h with h'
    subst h'
    have h0 : 0 ≤ (12 * d.year + (d.month - 1) + off) % 12 :=
      Int.emod_nonneg _ (by norm_num)
    have h12 : (12 * d.year + (d.month - 1) + off) % 12 < 12 :=
      Int.emod_lt_of_pos _ (by norm_num)
    refine ⟨hcond.1, hcond.2, ?_, ?_, ?_, rfl⟩ <;> dsimp only <;> omega
  case isFalse => exact absurd h (by simp)

/-! ## Lookup-table lemmas -/

/-- A successful `dictGet` returns one of the stored values. -/
theorem dictGet_all {α : Type} (P : α → Prop) [DecidablePred P]
    (l : List (String × α)) (key : String) (v : α)
    (hall : (l.all fun p => decide (P p.2)) = true)
    (h : dictGet l key = some v) : P v := by
  induction l with
  | nil => simp [dictGet] at h
  | cons p rest ih =>
    obtain ⟨a, b⟩ := p
    rw [List.all_cons] at hall
    obtain ⟨hb, hrest⟩ := Bool.and_eq_true_iff.mp hall
    simp only [dictGet] at h
    split at h
    · injection h with h'
      rw [← h']
      exact of_decide_eq_true hb
    · exact ih hrest h

/-- Every qualifier offset stored in any locale's map lies in -1..1. -/
theorem relative_map_bounds (k : Lang) (s : String) (v : Int)
    (h : dictGet (relative_map k) s = some v) : -1 ≤ v ∧ v ≤ 1 := by
  refine dictGet_all (fun x => -1 ≤ x ∧ x ≤ 1) (relative_map k) s v ?_ h
  cases k <;> decide

/-- Every weekday index stored in any locale's map lies in 0..6. -/
theorem weekday_map_bounds (k : Lang) (s : String) (v : Int)
    (h : dictGet (weekday_map k) s = some v) : 0 ≤ v ∧ v ≤ 6 := by
  refine dictGet_all (fun x => 0 ≤ x ∧ x ≤ 6) (weekday_map k) s v ?_ h
  cases k <;> decide

/-- The empty locale code resolves to no locale. -/
theorem get_language_key_empty : get_language_key "" = none := by decide

/-! ## Dispatcher safety -/

/-- A single locale's resolution never surfaces an exception when the base
year is inside 2..9998: all weekday deltas are bounded by 13 days. -/
theorem parse_with_language_ok (ds : List Char) (base : DateTime) (k : Lang)
    (hv : ValidDate base.date) (h2 : 2 ≤ base.date.year) (h9 : base.date.year ≤ 9998) :
    ∃ r, parse_with_language ds base k = Except.ok r := by
  unfold parse_with_language
  cases hm : month_match k (pyStrip ds) with
  | some g =>
    obtain ⟨g1, g2, rest⟩ := g
    dsimp only
    cases ho : dictGet (relative_map k) (String.mk (g1.map pyLower)) with
    | none => exact ⟨none, rfl⟩
    | some off =>
      cases hd : parse_day_number g2 k with
      | none => exact ⟨none, rfl⟩
      | some day =>
        by_cases hr : day < 1 ∨ 31 < day
        · exact ⟨none, by dsimp only; rw [if_pos hr]⟩
        · exact ⟨calculate_month_date base off day, by dsimp only; rw [if_neg hr]⟩
  | none =>
    dsimp only
    cases hw : week_match k (pyStrip ds) with
    | none => exact ⟨none, rfl⟩
    | some g =>
      obtain ⟨g1, g2, rest⟩ := g
      dsimp only
      cases ho : dictGet (relative_map k) (String.mk (g1.map pyLower)) with
      | none => exact ⟨none, rfl⟩
      | some w =>
        cases ht : dictGet (weekday_map k) (String.mk (g2.map pyLower)) with
        | none => exact ⟨none, rfl⟩
        | some t =>
          dsimp only
          obtain ⟨hw1, hw2⟩ := relative_map_bounds k _ w ho
          obtain ⟨ht1, ht2⟩ := weekday_map_bounds k _ t ht
          obtain ⟨hb1, hb2⟩ := weekdayOf_bounds base.date
          obtain ⟨d', hd'⟩ := addDaysDate_ok base.date
            ((t - weekdayOf base.date) + w * 7) hv h2 h9 (by nlinarith) (by nlinarith)
          refine ⟨some ⟨d', base.time⟩, ?_⟩
          simp [calculate_target_date, timedeltaAddDays, hd', Except.map]

/-- The all-locale scan never surfaces an exception inside the safe range. -/
theorem scanLangs_ok (ls : List Lang) (ds : List Char) (base : DateTime)
    (hv : ValidDate base.date) (h2 : 2 ≤ base.date.year) (h9 : base.date.year ≤ 9998) :
    ∃ r, scanLangs ls ds base = Except.ok r := by
  induction ls with
  | nil => exact ⟨none, rfl⟩
  | cons k ks ih =>
    obtain ⟨r, hr⟩ := parse_with_language_ok ds base k hv h2 h9
    cases r with
    | none =>
      obtain ⟨r', h'⟩ := ih
      exact ⟨r', by simp [scanLangs, hr, h']⟩
    | some d => exact ⟨some d, by simp [scanLangs, hr]⟩

/-! ## Claim theorems -/

/-- Claim C5 (amended): for every string input, every locale hint, and
every base time whose year lies in 2..9998, `parse` terminates without
surfacing an exception — unmatched or invalid input yields an ordinary
result.  (At the extreme edges of the representable range the weekday
path can surface `OverflowError`; see the counterexample.) -/
theorem resolve_no_exception_in_range (ds : String) (base : DateTime)
    (language : Option String) (hv : ValidDate base.date)
    (h2 : 2 ≤ base.date.year) (h9 : base.date.year ≤ 9998) :
    ∃ r, parse ds base language = Except.ok r := by
  unfold parse
  cases language with
  | none => exact scanLangs_ok _ _ _ hv h2 h9
  | some code =>
    dsimp only
    by_cases hc : code = ""
    · rw [if_pos hc]; exact scanLangs_ok _ _ _ hv h2 h9
    · rw [if_neg hc]
      cases hk : get_language_key code with
      | some k => exact parse_with_language_ok _ _ _ hv h2 h9
      | none => exact scanLangs_ok _ _ _ hv h2 h9

/-- Claim C5 counterexample: with the base on the last representable day,
the weekday path adds a positive day delta and surfaces `OverflowError`
to the caller (the code has no try/except around this path). -/
theorem resolve_overflow_counterexample :
    parse "next sunday" base99991231 (some "en") =
      Except.error PyExc.overflowError := by decide

/-- Witness for C5 (amended) at a concrete in-range input. -/
theorem resolve_no_exception_witness :
    ValidDate base202401.date ∧
    (∃ r, parse "hello world" base202401 (some "en") = Except.ok r) :=
  ⟨by decide, resolve_no_exception_in_range "hello world" base202401 (some "en")
    (by decide) (by decide) (by decide)⟩

/-- Claim C3 counterexample: the hint "xx" resolves to no locale, yet
`parse` and `is_applicable` fall back to the all-locale scan and succeed
on text matching the en patterns — they do not return null/false. -/
theorem unknown_hint_counterexample :
    get_language_key "xx" = none ∧
    parse "next monday" base202401 (some "xx") =
      Except.ok (some ⟨⟨2024, 1, 22⟩, ⟨10, 0, 0⟩⟩) ∧
    is_applicable "next monday" (some "xx") = true := by
  exact ⟨by decide, by decide, by decide⟩

/-- Claim C3 (amended): a locale hint that does not resolve to a canonical
key makes both `parse` and `is_applicable` behave exactly as if no hint
had been given: they silently fall back to scanning all locales. -/
theorem unknown_hint_falls_back (ds : String) (base : DateTime) (code : String)
    (hk : get_language_key code = none) :
    parse ds base (some code) = parse ds base none ∧
    is_applicable ds (some code) = is_applicable ds none := by
  constructor
  · unfold parse
    dsimp only
    by_cases hc : code = ""
    · rw [if_pos hc]
    · rw [if_neg hc, hk]
  · unfold is_applicable
    dsimp only
    by_cases hc : code = ""
    · rw [if_pos hc]
    · rw [if_neg hc, hk]

/-- Witness for C3 (amended) at the concrete unknown hint "xx". -/
theorem unknown_hint_falls_back_witness :
    get_language_key "xx" = none ∧
    parse "next monday" base202401 (some "xx") = parse "next monday" base202401 none ∧
    is_applicable "next monday" (some "xx") = is_applicable "next monday" none :=
  ⟨by decide,
   (unknown_hint_falls_back "next monday" base202401 "xx" (by decide)).1,
   (unknown_hint_falls_back "next monday" base202401 "xx" (by decide)).2⟩

/-- Claim C4 counterexample: in the zh weekday map the index 6 is reached
by three distinct keys (日, 天 and the digit 7), so the map's values are
not unique within 0..6. -/
theorem weekday_map_not_unique :
    ((weekday_map Lang.zh).map Prod.snd).count 6 = 3 ∧
    wdUnique (weekday_map Lang.zh) = false := by decide

/-- Claim C4 (amended): in all ten locales every qualifier offset is in
{-1,0,1} and every weekday index is in 0..6 with all seven indices covered;
the indices are unique in the nine non-zh locales, while in zh each of the
indices 0..5 has exactly two keys (a numeral word and a digit) and index 6
has exactly three (日, 天 and the digit 7). -/
theorem locale_table_invariants :
    (langOrder.all fun k =>
      qualValuesOk (relative_map k) && wdValuesInRange (weekday_map k) &&
        wdCovers (weekday_map k)) = true ∧
    (nonZhLangs.all fun k => wdUnique (weekday_map k)) = true ∧
    (([0, 1, 2, 3, 4, 5] : List Int).all fun i =>
      ((weekday_map Lang.zh).map Prod.snd).count i == 2) = true ∧
    ((weekday_map Lang.zh).map Prod.snd).count 6 = 3 := by decide

/-- Claim C9: "上个月十十号" matches the zh month pattern syntactically, so
`is_applicable` is true, but the day token 十十 is absent from the numeral
map, so `parse` yields null for the same arguments. -/
theorem applicable_but_unresolvable :
    is_applicable "上个月十十号" (some "zh") = true ∧
    parse "上个月十十号" base202401 (some "zh") = Except.ok none := by decide

/-- Claim C10: the zh weekday pattern accepts the digits 1..7 as weekday
names, digit d mapping to index d-1; "下周5" from Monday 2024-01-15
resolves to Friday 2024-01-26 with the time-of-day preserved. -/
theorem zh_digit_weekdays :
    dictGet (weekday_map Lang.zh) "1" = some 0 ∧
    dictGet (weekday_map Lang.zh) "2" = some 1 ∧
    dictGet (weekday_map Lang.zh) "3" = some 2 ∧
    dictGet (weekday_map Lang.zh) "4" = some 3 ∧
    dictGet (weekday_map Lang.zh) "5" = some 4 ∧
    dictGet (weekday_map Lang.zh) "6" = some 5 ∧
    dictGet (weekday_map Lang.zh) "7" = some 6 ∧
    week_match Lang.zh (toL "下周5") = some (['下'], ['5'], []) ∧
    parse "下周5" base202401 (some "zh") =
      Except.ok (some ⟨⟨2024, 1, 26⟩, ⟨10, 0, 0⟩⟩) := by decide

/-- A code that resolves to a locale key cannot be the empty string. -/
theorem get_language_key_ne_empty (code : String) (k : Lang)
    (hk : get_language_key code = some k) : ¬ code = "" := by
  intro h
  rw [h, get_language_key_empty] at hk
  exact Option.noConfusion hk

/-- Claim C1: whenever resolution goes through the weekday path (hinted
locale, month pattern fails, weekday pattern matches, both token lookups
succeed with offset `w` and index `t`), the result is exactly the base
shifted by `(t - weekday(base)) + w*7` days — signed, never normalised
into 0..6 — and the base's time-of-day is preserved. -/
theorem weekday_resolution_formula (ds : String) (base : DateTime) (code : String)
    (k : Lang) (g1 g2 rest : List Char) (w t : Int)
    (hk : get_language_key code = some k)
    (hm : month_match k (pyStrip ds.toList) = none)
    (hw : week_match k (pyStrip ds.toList) = some (g1, g2, rest))
    (hrel : dictGet (relative_map k) (String.mk (g1.map pyLower)) = some w)
    (hwd : dictGet (weekday_map k) (String.mk (g2.map pyLower)) = some t) :
    parse ds base (some code) =
      (timedeltaAddDays base ((t - weekdayOf base.date) + w * 7)).map some ∧
    ∀ r, parse ds base (some code) = Except.ok (some r) → r.time = base.time := by
  have hne := get_language_key_ne_empty code k hk
  have hp : parse ds base (some code) =
      (timedeltaAddDays base ((t - weekdayOf base.date) + w * 7)).map some := by
    unfold parse
    dsimp only
    rw [if_neg hne, hk]
    dsimp only
    unfold parse_with_language
    rw [hm]
    dsimp only
    rw [hw]
    dsimp only
    rw [hrel, hwd]
    rfl
  refine ⟨hp, ?_⟩
  intro r hr
  rw [hp] at hr
  cases he : timedeltaAddDays base ((t - weekdayOf base.date) + w * 7) with
  | ok d =>
    rw [he] at hr
    simp only [Except.map] at hr
    injection hr with hr'
    injection hr' with hr''
    rw [← hr'']
    exact timedeltaAddDays_time base _ d he
  | error e =>
    rw [he] at hr
    simp [Except.map] at hr

/-- Witness for C1: the zh example 上周五 from Monday 2024-01-15 resolves
through the formula with w = -1, t = 4 to Friday 2024-01-12 (day delta
-3, not a normalised 0..6 offset). -/
theorem weekday_resolution_formula_witness :
    week_match Lang.zh (pyStrip (toL "上周五")) = some (['上'], ['五'], []) ∧
    parse "上周五" base202401 (some "zh") =
      (timedeltaAddDays base202401 ((4 - weekdayOf base202401.date) + (-1) * 7)).map some ∧
    parse "上周五" base202401 (some "zh") =
      Except.ok (some ⟨⟨2024, 1, 12⟩, ⟨10, 0, 0⟩⟩) := by
  refine ⟨by decide, ?_, by decide⟩
  exact (weekday_resolution_formula "上周五" base202401 "zh" Lang.zh
    ['上'] ['五'] [] (-1) 4 (by decide) (by decide) (by decide)
    (by decide) (by decide)).1

/-- Claim C6: a valid explicit hint restricts matching to that single
locale; if neither of its patterns matches, the result is null, with no
fallback to other locales. -/
theorem hinted_locale_no_cross_fallback (ds : String) (base : DateTime)
    (code : String) (k : Lang)
    (hk : get_language_key code = some k)
    (hm : month_match k (pyStrip ds.toList) = none)
    (hw : week_match k (pyStrip ds.toList) = none) :
    parse ds base (some code) = Except.ok none := by
  have hne := get_language_key_ne_empty code k hk
  unfold parse
  dsimp only
  rw [if_neg hne, hk]
  dsimp only
  unfold parse_with_language
  rw [hm]
  dsimp only
  rw [hw]

/-- Witness for C6: "上周五" matches the zh weekday pattern, but with the
valid hint "en" the call returns null rather than falling back. -/
theorem hinted_locale_no_cross_fallback_witness :
    get_language_key "en" = some Lang.en ∧
    week_match Lang.zh (pyStrip (toL "上周五")) ≠ none ∧
    parse "上周五" base202401 (some "en") = Except.ok none :=
  ⟨by decide, by decide,
   hinted_locale_no_cross_fallback "上周五" base202401 "en" Lang.en
     (by decide) (by decide) (by decide)⟩

/-- Claim C7: a matched month-day expression whose day token parses to an
integer outside 1..31 yields null for every base time: the range test
rejects it before any month arithmetic or clamping is attempted. -/
theorem day_out_of_range_fast_reject (ds : String) (base : DateTime)
    (code : String) (k : Lang) (g1 g2 rest : List Char) (day : Int)
    (hk : get_language_key code = some k)
    (hm : month_match k (pyStrip ds.toList) = some (g1, g2, rest))
    (hday : parse_day_number g2 k = some day)
    (hrange : day < 1 ∨ 31 < day) :
    parse ds base (some code) = Except.ok none := by
  have hne := get_language_key_ne_empty code k hk
  unfold parse
  dsimp only
  rw [if_neg hne, hk]
  dsimp only
  unfold parse_with_language
  rw [hm]
  dsimp only
  cases ho : dictGet (relative_map k) (String.mk (g1.map pyLower)) with
  | none => rfl
  | some off =>
    dsimp only
    rw [hday]
    dsimp only
    rw [if_pos hrange]

/-- Witness for C7: "next month 0" parses its day token to 0, which is
rejected outright. -/
theorem day_out_of_range_fast_reject_witness :
    month_match Lang.en (pyStrip (toL "next month 0")) = some (toL "next", ['0'], []) ∧
    parse_day_number ['0'] Lang.en = some 0 ∧
    parse "next month 0" base202401 (some "en") = Except.ok none :=
  ⟨by decide, by decide,
   day_out_of_range_fast_reject "next month 0" base202401 "en" Lang.en
     (toL "next") ['0'] [] 0 (by decide) (by decide) (by decide)
     (Or.inl (by norm_num))⟩

/-- When the requested day does not exist in the shifted month, the
fallback clamps to the last day of that month, keeping the base time. -/
theorem calculate_month_date_clamp (base : DateTime) (off day : Int) (t : Date)
    (hshift : monthShift base.date off = some t)
    (h1 : 1 ≤ day) (h31 : day ≤ 31)
    (hbig : daysInMonth t.year t.month < day) :
    calculate_month_date base off day =
      some ⟨⟨t.year, t.month, daysInMonth t.year t.month⟩, base.time⟩ := by
  obtain ⟨hy1, hy9, hm1, hm12, hcount, hday⟩ := monthShift_char _ _ _ hshift
  have hm11 : t.month ≤ 11 := by
    rcases eq_or_lt_of_le hm12 with he | hlt
    · rw [he, daysInMonth_dec] at hbig; omega
    · omega
  have hdim1 := daysInMonth_pos t.year (t.month + 1)
  have hshift2 : monthShift ⟨t.year, t.month, 1⟩ 1 = some ⟨t.year, t.month + 1, 1⟩ := by
    simp only [monthShift]
    rw [Int.fdiv_eq_ediv _ (by norm_num), Int.fmod_eq_emod _ (by norm_num)]
    have e1 : (12 * t.year + (t.month - 1) + 1) / 12 = t.year := by omega
    have e2 : (12 * t.year + (t.month - 1) + 1) % 12 = t.month := by omega
    rw [e1, e2, if_pos ⟨hy1, hy9⟩]
    have e3 : min 1 (daysInMonth t.year (t.month + 1)) = 1 := by omega
    rw [e3]
  have hpred : predDate ⟨t.year, t.month + 1, 1⟩ =
      some ⟨t.year, t.month, daysInMonth t.year t.month⟩ := by
    unfold predDate
    rw [if_neg (by norm_num : ¬ (1:Int) < 1),
      if_pos (by omega : (1:Int) < t.month + 1)]
    norm_num
  unfold calculate_month_date
  rw [hshift]
  dsimp only
  rw [if_neg (by omega : ¬ (1 ≤ day ∧ day ≤ daysInMonth t.year t.month))]
  unfold calculate_month_fallback
  rw [hshift]
  dsimp only
  rw [hshift2]
  dsimp only
  rw [hpred]
  dsimp only
  rw [if_neg (by omega : ¬ day ≤ daysInMonth t.year t.month)]

/-- Claim C2: a matched month-day expression whose day does not exist in
the shifted month resolves to the last valid day of that month, with the
base's time-of-day preserved, instead of failing. -/
theorem month_day_clamp (ds : String) (base : DateTime) (code : String)
    (k : Lang) (g1 g2 rest : List Char) (off day : Int) (t : Date)
    (hk : get_language_key code = some k)
    (hm : month_match k (pyStrip ds.toList) = some (g1, g2, rest))
    (hrel : dictGet (relative_map k) (String.mk (g1.map pyLower)) = some off)
    (hday : parse_day_number g2 k = some day)
    (h1 : 1 ≤ day) (h31 : day ≤ 31)
    (hshift : monthShift base.date off = some t)
    (hbig : daysInMonth t.year t.month < day) :
    parse ds base (some code) =
      Except.ok (some ⟨⟨t.year, t.month, daysInMonth t.year t.month⟩, base.time⟩) := by
  have hne := get_language_key_ne_empty code k hk
  unfold parse
  dsimp only
  rw [if_neg hne, hk]
  dsimp only
  unfold parse_with_language
  rw [hm]
  dsimp only
  rw [hrel]
  dsimp only
  rw [hday]
  dsimp only
  rw [if_neg (by omega : ¬ (day < 1 ∨ 31 < day))]
  rw [calculate_month_date_clamp base off day t hshift h1 h31 hbig]

/-- Witness for C2: "next month 31st" from 2024-03-31 10:00 clamps to
2024-04-30 10:00 (April has 30 days). -/
theorem month_day_clamp_witness :
    month_match Lang.en (pyStrip (toL "next month 31st")) =
      some (toL "next", toL "31", []) ∧
    monthShift base20240331.date 1 = some ⟨2024, 4, 30⟩ ∧
    daysInMonth 2024 4 = 30 ∧
    parse "next month 31st" base20240331 (some "en") =
      Except.ok (some ⟨⟨2024, 4, daysInMonth 2024 4⟩, ⟨10, 0, 0⟩⟩) := by
  refine ⟨by decide, by decide, by decide, ?_⟩
  exact month_day_clamp "next month 31st" base20240331 "en" Lang.en
    (toL "next") (toL "31") [] 1 31 ⟨2024, 4, 30⟩
    (by decide) (by decide) (by decide) (by decide) (by norm_num) (by norm_num)
    (by decide) (by decide)

/-! ## Anchored-matching lemmas -/

/-- A successful literal match splits the input after the literal. -/
theorem matchLit_eq_append (p : List Char) :
    ∀ s r, matchLit p s = some r → s = p ++ r := by
  induction p with
  | nil =>
    intro s r h
    simp only [matchLit, Option.some.injEq] at h
    simp [h]
  | cons c cs ih =>
    intro s r h
    cases s with
    | nil => exact absurd h (by simp [matchLit])
    | cons x xs =>
      simp only [matchLit] at h
      split at h
      case isTrue hcx =>
        subst hcx
        rw [List.cons_append, ih xs r h]
      case isFalse => exact absurd h (by simp)

/-- A literal always matches input that starts with it. -/
theorem matchLit_append (p r : List Char) : matchLit p (p ++ r) = some r := by
  induction p with
  | nil => rfl
  | cons c cs ih => simp [matchLit, ih]

/-- A successful alternation match splits the input after the captured
alternative. -/
theorem matchAlt_eq_append (alts : List (List Char)) :
    ∀ s a r, matchAlt alts s = some (a, r) → s = a ++ r := by
  induction alts with
  | nil => intro s a r h; exact absurd h (by simp [matchAlt])
  | cons b rest ih =>
    intro s a r h
    simp only [matchAlt] at h
    cases hb : matchLit b s with
    | some rb =>
      rw [hb] at h
      injection h with h'
      injection h' with h1 h2
      subst h1; subst h2
      exact matchLit_eq_append b s _ hb
    | none =>
      rw [hb] at h
      exact ih s a r h

/-- Replaying an alternation on the matched capture followed by a prefix of
the old remainder yields the same capture: alternation is insensitive to
input beyond what it consumed. -/
theorem matchAlt_replay (alts : List (List Char)) :
    ∀ s a r r' tl, matchAlt alts s = some (a, r) → r = r' ++ tl →
      matchAlt alts (a ++ r') = some (a, r') := by
  induction alts with
  | nil => intro s a r r' tl h _; exact absurd h (by simp [matchAlt])
  | cons b rest ih =>
    intro s a r r' tl h hr
    simp only [matchAlt] at h ⊢
    cases hb : matchLit b s with
    | some rb =>
      rw [hb] at h
      injection h with h'
      injection h' with h1 h2
      subst h1; subst h2
      rw [matchLit_append]
    | none =>
      rw [hb] at h
      have hnone : matchLit b (a ++ r') = none := by
        cases hx : matchLit b (a ++ r') with
        | none => rfl
        | some rx =>
          exfalso
          have hdec := matchLit_eq_append b _ _ hx
          have hs := matchAlt_eq_append rest s a r h
          have hbs : matchLit b s = some (rx ++ tl) := by
            rw [hs, hr, ← List.append_assoc, hdec, List.append_assoc]
            exact matchLit_append b (rx ++ tl)
          rw [hb] at hbs
          exact Option.noConfusion hbs
      rw [hnone]
      exact ih s a r r' tl h hr

/-- The head surviving a `dropWhile` does not satisfy the predicate. -/
theorem dropWhile_head_false (p : Char → Bool) :
    ∀ (l : List Char) y tl, l.dropWhile p = y :: tl → p y = false := by
  intro l
  induction l with
  | nil => intro y tl h; simp at h
  | cons c cs ih =>
    intro y tl h
    rw [List.dropWhile_cons] at h
    split at h
    · exact ih y tl h
    case isFalse hc =>
      injection h with h1 _
      rw [← h1]
      cases hpc : p c with
      | false => rfl
      | true => exact absurd hpc hc

/-- `dropWhile` erases a satisfying prefix and stops at a head that fails
the predicate. -/
theorem dropWhile_all_append (p : Char → Bool) :
    ∀ (c d : List Char), (∀ x ∈ c, p x = true) →
      (d = [] ∨ ∃ y tl, d = y :: tl ∧ p y = false) →
      (c ++ d).dropWhile p = d := by
  intro c
  induction c with
  | nil =>
    intro d _ hd
    rcases hd with rfl | ⟨y, tl, rfl, hy⟩
    · rfl
    · simp [List.dropWhile_cons, hy]
  | cons c0 c' ih =>
    intro d hall hd
    rw [List.cons_append, List.dropWhile_cons]
    simp only [hall c0 (by simp), if_true]
    exact ih d (fun x hx => hall x (by simp [hx])) hd

/-- A successful `\s+` match consumed a nonempty greedy run of whitespace:
the remainder starts with a non-space character (or is empty). -/
theorem ws1_decomp (s r : List Char) (h : ws1 s = some r) :
    ∃ c, s = c ++ r ∧ c ≠ [] ∧ (∀ x ∈ c, isPySpace x = true) ∧
      (r = [] ∨ ∃ y tl, r = y :: tl ∧ isPySpace y = false) := by
  cases s with
  | nil => exact absurd h (by simp [ws1])
  | cons c0 cs =>
    simp only [ws1] at h
    split at h
    case isTrue hsp =>
      injection h with h'
      refine ⟨c0 :: cs.takeWhile isPySpace, ?_, by simp, ?_, ?_⟩
      · rw [← h', List.cons_append, List.takeWhile_append_dropWhile]
      · intro x hx
        rcases List.mem_cons.mp hx with rfl | hx'
        · exact hsp
        · exact List.mem_takeWhile_imp hx'
      · rw [← h']
        cases hd : cs.dropWhile isPySpace with
        | nil => exact Or.inl rfl
        | cons y tl => exact Or.inr ⟨y, tl, rfl, dropWhile_head_false _ _ y tl hd⟩
    case isFalse => exact absurd h (by simp)

/-- Replaying `\s+` on the consumed whitespace run followed by non-space
input returns exactly that input. -/
theorem ws1_replay (c d : List Char) (hne : c ≠ [])
    (hall : ∀ x ∈ c, isPySpace x = true)
    (hd : d = [] ∨ ∃ y tl, d = y :: tl ∧ isPySpace y = false) :
    ws1 (c ++ d) = some d := by
  cases c with
  | nil => exact absurd rfl hne
  | cons c0 c' =>
    rw [List.cons_append]
    simp only [ws1]
    simp only [hall c0 (by simp), if_true]
    rw [dropWhile_all_append isPySpace c' d (fun x hx => hall x (by simp [hx])) hd]

/-- Claim C8: matching is anchored at the start of the input but does not
require consuming it entirely.  Whatever a weekday match leaves unconsumed
is ignored: truncating the input to the consumed prefix reproduces the
same captures, and the worked example resolves identically with and
without trailing text. -/
theorem anchored_match_ignores_trailing (cs q w rest : List Char)
    (h : euWeek enQuals enDays cs = some (q, w, rest)) :
    euWeek enQuals enDays (cs.take (cs.length - rest.length)) = some (q, w, []) ∧
    parse "next monday and other text" base202401 (some "en") =
      parse "next monday" base202401 (some "en") ∧
    parse "next monday" base202401 (some "en") =
      Except.ok (some ⟨⟨2024, 1, 22⟩, ⟨10, 0, 0⟩⟩) := by
  refine ⟨?_, by decide, by decide⟩
  unfold euWeek at h
  cases ha : matchAlt enQuals cs with
  | none => rw [ha] at h; exact absurd h (by simp)
  | some qr =>
    obtain ⟨q', r1⟩ := qr
    rw [ha] at h
    dsimp only at h
    cases hb : ws1 r1 with
    | none => rw [hb] at h; exact absurd h (by simp)
    | some r2 =>
      rw [hb] at h
      dsimp only at h
      cases hc : matchAlt enDays r2 with
      | none => rw [hc] at h; exact absurd h (by simp)
      | some wr =>
        obtain ⟨w', r3⟩ := wr
        rw [hc] at h
        dsimp only at h
        injection h with h'
        have h2 := h'.symm
        injection h2 with e1 h''
        injection h'' with e2 e3
        subst e1; subst e2; subst e3
        have hs1 : cs = q ++ r1 := matchAlt_eq_append _ _ _ _ ha
        obtain ⟨c, hr1, hcne, hcall, hhead⟩ := ws1_decomp r1 r2 hb
        have hs2 : r2 = w ++ rest := matchAlt_eq_append _ _ _ _ hc
        have hcs : cs = (q ++ (c ++ w)) ++ rest := by
          rw [hs1, hr1, hs2]; simp [List.append_assoc]
        have htake : cs.take (cs.length - rest.length) = q ++ (c ++ w) := by
          rw [hcs]
          have hlen : ((q ++ (c ++ w)) ++ rest).length - rest.length
              = (q ++ (c ++ w)).length := by
            simp only [List.length_append]
            omega
          rw [hlen, List.take_left]
        rw [htake]
        have ha' : matchAlt enQuals (q ++ (c ++ w)) = some (q, c ++ w) := by
          refine matchAlt_replay _ _ _ _ _ rest ha ?_
          rw [hr1, hs2]; simp [List.append_assoc]
        have hb' : ws1 (c ++ w) = some w := by
          refine ws1_replay c w hcne hcall ?_
          cases hw0 : w with
          | nil => exact Or.inl rfl
          | cons y tl =>
            rcases hhead with h0 | ⟨y', tl', he, hy'⟩
            · rw [hs2, hw0] at h0; simp at h0
            · refine Or.inr ⟨y, tl, rfl, ?_⟩
              rw [hs2, hw0] at he
              simp only [List.cons_append] at he
              injection he with he1 _
              rw [he1]; exact hy'
        have hc' : matchAlt enDays w = some (w, []) := by
          have hrep := matchAlt_replay _ _ _ _ [] rest hc (by simp)
          rw [List.append_nil] at hrep
          exact hrep
        unfold euWeek
        rw [ha']
        dsimp only
        rw [hb']
        dsimp only
        rw [hc']

/-- Witness for C8 at the worked example with trailing text. -/
theorem anchored_match_ignores_trailing_witness :
    euWeek enQuals enDays (toL "next monday and other text") =
      some (toL "next", toL "monday", toL " and other text") ∧
    euWeek enQuals enDays ((toL "next monday and other text").take
      ((toL "next monday and other text").length - (toL " and other text").length)) =
      some (toL "next", toL "monday", []) ∧
    parse "next monday and other text" base202401 (some "en") =
      parse "next monday" base202401 (some "en") := by
  refine ⟨by decide, ?_, ?_⟩
  · exact (anchored_match_ignores_trailing (toL "next monday and other text")
      (toL "next") (toL "monday") (toL " and other text") (by decide)).1
  · exact (anchored_match_ignores_trailing (toL "next monday and other text")
      (toL "next") (toL "monday") (toL " and other text") (by decide)).2.1
